import Mathlib

/-!
Shallow embedding of the sponge caching proxy (src/sponge.go, the revision at
lines 1-113 that the claims cite; identical code appears in the later revisions
up to comments).

Modelling conventions:
* A Go `map[string]V` is an association list `List (String × V)`; lookup takes
  the first binding, insert replaces the binding, so states built by the
  embedded operations have unique keys, as Go maps do.
* `time.Time` and `time.Duration` are `Int` (nanosecond counts); `time.Now()`
  becomes an explicit `now` argument at each point the source calls it.
* The handler's configuration fields (`TickTime`, `TickCount`,
  `CacheExtraExpiration`, `CacheRunExpiration`) live in `SpongeHandler`; its
  mutable fields (`cache`, `cache_expire`) are passed as an explicit
  `SpongeCache` state.
* The external collaborators (`SpongeProxy.MakeBackendRequest`,
  `SpongeProxy.HandleError`, `SpongeProxyResult.Equal`,
  `SpongeProxyWriter.WriteToHTTP`, `log.Println`, `go check_tick`) are modelled
  by an outcome parameter (`Except Err Result` for the fetch, a Bool-valued
  `Equal` predicate) plus an `Event` trace recording each external call.
* A request is represented by its resolved cache key, since
  `SpongeProxy.MakeCacheKey` is an external pure function applied to the
  request wherever a key is needed.
* Go operations that dereference a nil interface (calling `Equal` or
  `WriteToHTTP` on a missing map entry's zero value) are partial: the embedded
  function returns `Option`, `none` being the runtime fault.
-/

namespace Sponge

/-- Lookup in an embedded Go map: the value bound to `k`, if present. -/
def mapLookup (m : List (String × α)) (k : String) : Option α :=
  match m with
  | [] => none
  | (k1, v) :: rest => if k1 = k then some v else mapLookup rest k

/-- Insert into an embedded Go map: `m[k] = v`, replacing any previous binding. -/
def mapInsert (m : List (String × α)) (k : String) (v : α) : List (String × α) :=
  (k, v) :: m.filter (fun p => p.1 ≠ k)

/-- The keys of an embedded Go map. -/
def mapKeys (m : List (String × α)) : List String :=
  m.map Prod.fst

/-- One externally visible action of the handler. -/
inductive Event (Result Err : Type) where
  /-- One call of SpongeProxy.MakeBackendRequest. -/
  | fetch
  /-- One call of SpongeProxy.HandleError with error e. -/
  | handleError (e : Err)
  /-- One call of value.WriteToHTTP, writing the response v. -/
  | write (v : Result)
  /-- One `go sh.check_tick(key, request)` statement: a poll session starts. -/
  | spawnPoll (key : String)
  /-- One `log.Println("error:", err)` call inside check_tick. -/
  | logError (e : Err)
deriving DecidableEq, Repr

/-- Is this event a backend fetch? -/
def Event.isFetch : Event Result Err → Bool
  | .fetch => true
  | _ => false

/-- Is this event the spawn of a poll session? -/
def Event.isSpawn : Event Result Err → Bool
  | .spawnPoll _ => true
  | _ => false

/-- Number of MakeBackendRequest invocations recorded in a trace. -/
def countFetch (evs : List (Event Result Err)) : Nat :=
  (evs.filter Event.isFetch).length

/-- Configuration fields of SpongeHandler (src/sponge.go lines 10-20). -/
structure SpongeHandler where
  TickTime : Int
  TickCount : Int
  CacheExtraExpiration : Int
  CacheRunExpiration : Int

/-- The handler's mutable state: the `cache` and `cache_expire` maps. -/
structure SpongeCache (Result : Type) where
  cache : List (String × Result)
  cache_expire : List (String × Int)
deriving DecidableEq, Repr

/-- Init (src/sponge.go lines 37-47): `none` models a nil argument.  The
`cache` map is the argument when non-nil, else a fresh empty map, and
`cache_expire` is always a fresh empty map.  (The goroutine it spawns is
modelled by `do_cache_expiry_tick`, one sweep iteration.) -/
def Init (c : Option (List (String × Result))) : SpongeCache Result :=
  { cache := c.getD [], cache_expire := [] }

/-- SetCache (src/sponge.go lines 85-89): installs `value` under the
request's key in `cache` and stamps `cache_expire[key] = time.Now()`. -/
def SetCache (key : String) (value : Result) (now : Int)
    (st : SpongeCache Result) : SpongeCache Result :=
  { cache := mapInsert st.cache key value,
    cache_expire := mapInsert st.cache_expire key now }

/-- The `expiration_time` local of `do_cache_expiry` (src/sponge.go line 50):
`CacheExtraExpiration + TickCount * TickTime`. -/
def expiration_time (sh : SpongeHandler) : Int :=
  sh.CacheExtraExpiration + sh.TickCount * sh.TickTime

/-- The deletion test of `do_cache_expiry` (src/sponge.go line 54):
`time.Now().Add(-expiration_time).After(value.Add(sh.CacheExtraExpiration))`,
i.e. `now - expiration_time > last + CacheExtraExpiration`. -/
def expireCond (sh : SpongeHandler) (now last : Int) : Bool :=
  decide (now - expiration_time sh > last + sh.CacheExtraExpiration)

/-- One iteration of the sweep loop of `do_cache_expiry` (src/sponge.go lines
52-58): every `cache_expire` entry whose timestamp satisfies `expireCond` is
deleted, by key, from both maps. -/
def do_cache_expiry_tick (sh : SpongeHandler) (now : Int)
    (st : SpongeCache Result) : SpongeCache Result :=
  let expired := mapKeys (st.cache_expire.filter (fun p => expireCond sh now p.2))
  { cache := st.cache.filter (fun p => p.1 ∉ expired),
    cache_expire := st.cache_expire.filter (fun p => p.1 ∉ expired) }

/-- The loop body iterations of `check_tick` (src/sponge.go lines 67-82).
`fetch i` is the outcome of the MakeBackendRequest call on attempt `i`
(0-based) and `now i` the wall clock there; `b` is the remaining attempt
budget, `log` the event trace so far.  On a fetch error the attempt is logged
and the loop continues; on success the code evaluates
`sh.cache[key].Equal(result)` — when `key` is absent this calls `Equal` on a
nil interface and faults, modelled by `none`.  When the results are unequal it
installs the new result (`SetCache`) and returns. -/
def check_tick_aux (Equal : Result → Result → Bool) (key : String)
    (fetch : Nat → Except Err Result) (now : Nat → Int) :
    Nat → Nat → SpongeCache Result → List (Event Result Err) →
    Option (SpongeCache Result × List (Event Result Err))
  | _, 0, st, log => some (st, log)
  | i, b + 1, st, log =>
    match fetch i with
    | .error e =>
      check_tick_aux Equal key fetch now (i + 1) b st
        (log ++ [Event.fetch, Event.logError e])
    | .ok result =>
      match mapLookup st.cache key with
      | none => none
      | some cached =>
        if Equal cached result then
          check_tick_aux Equal key fetch now (i + 1) b st (log ++ [Event.fetch])
        else
          some (SetCache key result (now i) st, log ++ [Event.fetch])

/-- Function check_tick (src/sponge.go lines 64-83): up to `TickCount` attempts
(`int64(tick_count) < sh.TickCount`, so a non-positive count means none). -/
def check_tick (sh : SpongeHandler) (Equal : Result → Result → Bool)
    (key : String) (fetch : Nat → Except Err Result) (now : Nat → Int)
    (st : SpongeCache Result) :
    Option (SpongeCache Result × List (Event Result Err)) :=
  check_tick_aux Equal key fetch now 0 sh.TickCount.toNat st []

/-- ServeHTTP (src/sponge.go lines 91-113), one request executed in
isolation (the concurrent-interleaving model is below).  `fetch` is the
outcome MakeBackendRequest would return for this request.  On a hit the cached
value is written; on a miss with a failed fetch, HandleError runs and the
state is returned untouched; on a miss with a successful fetch the result is
installed, re-read (`value, _ = sh.cache[key]`), a poll session is spawned and
the value written.  The re-read yielding nothing would be a nil
`WriteToHTTP` fault (`none`). -/
def ServeHTTP (key : String) (fetch : Except Err Result) (now : Int)
    (st : SpongeCache Result) :
    Option (SpongeCache Result × List (Event Result Err)) :=
  match mapLookup st.cache key with
  | some value => some (st, [Event.write value])
  | none =>
    match fetch with
    | .error e => some (st, [Event.fetch, Event.handleError e])
    | .ok result =>
      let st1 := SetCache key result now st
      match mapLookup st1.cache key with
      | some value =>
        some (st1, [Event.fetch, Event.spawnPoll key, Event.write value])
      | none => none

/-! Basic lemmas about the embedded map operations and traces. -/

theorem mapLookup_nil (k : String) : mapLookup ([] : List (String × α)) k = none := rfl

theorem mapLookup_filter_ne (m : List (String × α)) (key k : String) (h : key ≠ k) :
    mapLookup (m.filter (fun p => p.1 ≠ key)) k = mapLookup m k := by
  induction m with
  | nil => rfl
  | cons p rest ih =>
    obtain ⟨a, b⟩ := p
    simp only [decide_not] at ih
    by_cases ha : a = key
    · subst ha
      simp [List.filter_cons, mapLookup, h, ih]
    · by_cases hak : a = k
      · subst hak
        simp [List.filter_cons, mapLookup, ha, ih]
      · simp [List.filter_cons, mapLookup, ha, hak, ih]

theorem mapLookup_mapInsert_self (m : List (String × α)) (k : String) (v : α) :
    mapLookup (mapInsert m k v) k = some v := by
  simp [mapInsert, mapLookup]

theorem mapLookup_mapInsert (m : List (String × α)) (key k : String) (v : α) :
    mapLookup (mapInsert m key v) k = if key = k then some v else mapLookup m k := by
  by_cases h : key = k
  · subst h
    simp [mapInsert, mapLookup]
  · simp only [mapInsert, mapLookup, if_neg h]
    exact mapLookup_filter_ne m key k h

theorem countFetch_append (l1 l2 : List (Event Result Err)) :
    countFetch (l1 ++ l2) = countFetch l1 + countFetch l2 := by
  simp [countFetch, List.filter_append]

theorem mem_mapKeys (m : List (String × α)) (k : String) :
    k ∈ mapKeys m ↔ ∃ p ∈ m, p.1 = k := by
  simp [mapKeys, List.mem_map]

theorem mapLookup_isSome_iff_mem (m : List (String × α)) (k : String) :
    (mapLookup m k).isSome = true ↔ k ∈ mapKeys m := by
  induction m with
  | nil => simp [mapLookup, mapKeys]
  | cons p rest ih =>
    obtain ⟨a, b⟩ := p
    by_cases hak : a = k
    · subst hak
      simp [mapLookup, mapKeys]
    · simp [mapLookup, mapKeys, hak, ih, Ne.symm hak]

theorem mapLookup_filter_of_mem (m : List (String × α)) (ks : List String) (k : String)
    (hk : k ∈ ks) : mapLookup (m.filter (fun p => p.1 ∉ ks)) k = none := by
  induction m with
  | nil => rfl
  | cons p rest ih =>
    obtain ⟨a, b⟩ := p
    simp only [decide_not] at ih
    by_cases hak : a = k
    · subst hak
      simp [List.filter_cons, hk, ih]
    · by_cases hin : a ∈ ks
      · simp [List.filter_cons, hin, ih]
      · simp [List.filter_cons, hin, mapLookup, hak, ih]

theorem mapLookup_filter_of_not_mem (m : List (String × α)) (ks : List String) (k : String)
    (hk : k ∉ ks) : mapLookup (m.filter (fun p => p.1 ∉ ks)) k = mapLookup m k := by
  induction m with
  | nil => rfl
  | cons p rest ih =>
    obtain ⟨a, b⟩ := p
    simp only [decide_not] at ih
    by_cases hak : a = k
    · subst hak
      simp [List.filter_cons, hk, mapLookup, ih]
    · by_cases hin : a ∈ ks
      · simp [List.filter_cons, hin, mapLookup, hak, ih]
      · simp [List.filter_cons, hin, mapLookup, hak, ih]

theorem mem_mapKeys_filter_cond (m : List (String × α)) (c : α → Bool) (k : String) (v : α)
    (h1 : mapLookup m k = some v) (h2 : c v = true) :
    k ∈ mapKeys (m.filter (fun p => c p.2)) := by
  induction m with
  | nil => simp [mapLookup] at h1
  | cons p rest ih =>
    obtain ⟨a, b⟩ := p
    simp only [mapLookup] at h1
    by_cases hak : a = k
    · rw [if_pos hak] at h1
      have hbv : b = v := by
        injection h1
      subst hbv
      subst hak
      simp [List.filter_cons, h2, mapKeys]
    · rw [if_neg hak] at h1
      have hmem := ih h1
      by_cases hcb : c b = true
      · simp only [List.filter_cons, hcb, if_pos]
        simp only [mapKeys, List.map_cons]
        exact List.mem_cons_of_mem _ (by simpa [mapKeys] using hmem)
      · simp only [List.filter_cons, hcb]
        simpa [hcb] using hmem

theorem mem_mapKeys_of_mem_filter (m : List (String × α)) (q : String × α → Bool) (k : String)
    (h : k ∈ mapKeys (m.filter q)) : k ∈ mapKeys m := by
  simp only [mapKeys, List.mem_map, List.mem_filter] at h ⊢
  obtain ⟨p, ⟨hp, _⟩, hpk⟩ := h
  exact ⟨p, hp, hpk⟩

theorem not_mem_of_mem_mapKeys_filter (m : List (String × α)) (ks : List String) (k : String)
    (h : k ∈ mapKeys (m.filter (fun p => p.1 ∉ ks))) : k ∉ ks := by
  simp only [mapKeys, List.mem_map, List.mem_filter] at h
  obtain ⟨p, ⟨_, hp⟩, hpk⟩ := h
  subst hpk
  simpa using hp

/-- The cold-miss success branch of ServeHTTP: when the key is absent and the
backend fetch succeeds, the result is installed, a poll session is spawned and
the freshly installed value is written. -/
theorem ServeHTTP_cold_ok (Result Err : Type) (key : String) (r : Result) (now : Int)
    (st : SpongeCache Result) (h : mapLookup st.cache key = none) :
    ServeHTTP key (Except.ok r : Except Err Result) now st =
      some (SetCache key r now st,
        [Event.fetch, Event.spawnPoll key, Event.write r]) := by
  unfold ServeHTTP
  rw [h]
  simp [SetCache, mapLookup_mapInsert_self]

/-- The store invariant of the spec: every key present in the cache map has a
well-defined LastUpdated, i.e. a corresponding entry in the cache_expire map. -/
def CacheExpireCovers (st : SpongeCache Result) : Prop :=
  ∀ k ∈ mapKeys st.cache, (mapLookup st.cache_expire k).isSome = true

instance instDecidableCacheExpireCovers (st : SpongeCache Result) :
    Decidable (CacheExpireCovers st) :=
  List.decidableBAll (fun k => (mapLookup st.cache_expire k).isSome = true)
    (mapKeys st.cache)

theorem covers_SetCache (key : String) (v : Result) (now : Int)
    (st : SpongeCache Result) (h : CacheExpireCovers st) :
    CacheExpireCovers (SetCache key v now st) := by
  intro k hk
  show (mapLookup (mapInsert st.cache_expire key now) k).isSome = true
  rw [mapLookup_mapInsert]
  by_cases hkey : key = k
  · simp [hkey]
  · rw [if_neg hkey]
    apply h k
    have hins : k ∈ mapKeys (mapInsert st.cache key v) := hk
    simp only [mapInsert, mapKeys, List.map_cons, List.mem_cons] at hins
    rcases hins with h1 | h1
    · exact absurd h1.symm hkey
    · exact mem_mapKeys_of_mem_filter st.cache _ k h1

theorem ServeHTTP_state_cases (key : String) (fetch : Except Err Result) (now : Int)
    (st st2 : SpongeCache Result) (evs : List (Event Result Err))
    (h : ServeHTTP key fetch now st = some (st2, evs)) :
    st2 = st ∨ ∃ r, st2 = SetCache key r now st := by
  unfold ServeHTTP at h
  split at h
  · simp only [Option.some.injEq, Prod.mk.injEq] at h
    exact Or.inl h.1.symm
  · split at h
    · simp only [Option.some.injEq, Prod.mk.injEq] at h
      exact Or.inl h.1.symm
    · simp only [SetCache, mapLookup_mapInsert_self, Option.some.injEq,
        Prod.mk.injEq] at h
      exact Or.inr ⟨_, h.1.symm⟩

theorem covers_check_tick_aux (Equal : Result → Result → Bool) (key : String)
    (fetch : Nat → Except Err Result) (now : Nat → Int) :
    ∀ (b i : Nat) (st : SpongeCache Result) (log : List (Event Result Err))
      (st2 : SpongeCache Result) (log2 : List (Event Result Err)),
      check_tick_aux Equal key fetch now i b st log = some (st2, log2) →
      CacheExpireCovers st → CacheExpireCovers st2 := by
  intro b
  induction b with
  | zero =>
    intro i st log st2 log2 h hc
    simp only [check_tick_aux, Option.some.injEq, Prod.mk.injEq] at h
    exact h.1 ▸ hc
  | succ b ih =>
    intro i st log st2 log2 h hc
    cases hf : fetch i with
    | error e =>
      simp only [check_tick_aux, hf] at h
      exact ih (i + 1) st _ st2 log2 h hc
    | ok r =>
      cases hl : mapLookup st.cache key with
      | none =>
        simp only [check_tick_aux, hf, hl] at h
        exact Option.noConfusion h
      | some cached =>
        by_cases he : Equal cached r = true
        · simp only [check_tick_aux, hf, hl, he, if_true] at h
          exact ih (i + 1) st _ st2 log2 h hc
        · have he2 : Equal cached r = false := by
            simpa using he
          simp only [check_tick_aux, hf, hl, he2, Bool.false_eq_true, if_false,
            Option.some.injEq, Prod.mk.injEq] at h
          exact h.1 ▸ covers_SetCache key r (now i) st hc

theorem covers_expiry_tick (sh : SpongeHandler) (now : Int) (st : SpongeCache Result)
    (h : CacheExpireCovers st) : CacheExpireCovers (do_cache_expiry_tick sh now st) := by
  intro k hk
  simp only [do_cache_expiry_tick] at hk ⊢
  have h1 : k ∈ mapKeys st.cache := mem_mapKeys_of_mem_filter st.cache _ k hk
  have h2 : k ∉ mapKeys (st.cache_expire.filter (fun p => expireCond sh now p.2)) :=
    not_mem_of_mem_mapKeys_filter st.cache _ k hk
  rw [mapLookup_filter_of_not_mem st.cache_expire _ k h2]
  exact h k h1

/-! Claim theorems. -/

/-- C9: for every request whose key is present in the cache (a store hit),
ServeHTTP writes the cached Result to the response, performs zero backend
fetches and leaves the store unmodified: the returned state is the input state
and the trace is a single write of the cached value, containing no fetch. -/
theorem c9_cache_hit (Result Err : Type) (key : String) (v : Result)
    (fetch : Except Err Result) (now : Int) (st : SpongeCache Result)
    (h : mapLookup st.cache key = some v) :
    ServeHTTP key fetch now st = some (st, [Event.write v]) ∧
    countFetch ([Event.write v] : List (Event Result Err)) = 0 := by
  constructor
  · unfold ServeHTTP
    rw [h]
  · rfl

/-- Witness for C9 at a concrete warm state: the hit is served from cache and
the backend outcome argument is never consulted. -/
theorem c9_cache_hit_witness :
    ServeHTTP "k" (Except.ok 7 : Except Unit Nat) 3
        (⟨[("k", 5)], [("k", 0)]⟩ : SpongeCache Nat) =
      some (⟨[("k", 5)], [("k", 0)]⟩, [Event.write 5]) ∧
    countFetch ([Event.write 5] : List (Event Nat Unit)) = 0 :=
  c9_cache_hit Nat Unit "k" 5 (Except.ok 7) 3 ⟨[("k", 5)], [("k", 0)]⟩ (by decide)

/-- C4: for every request whose cold backend fetch fails, ServeHTTP invokes
HandleError, returns the state untouched (nothing installed in either map),
and the trace contains no spawnPoll event (no poll session is started). -/
theorem c4_cold_fetch_failure (Result Err : Type) (key : String) (e : Err) (now : Int)
    (st : SpongeCache Result) (h : mapLookup st.cache key = none) :
    ServeHTTP key (Except.error e) now st =
      some (st, [Event.fetch, Event.handleError e]) ∧
    ([Event.fetch, Event.handleError e] : List (Event Result Err)).filter
      Event.isSpawn = [] := by
  constructor
  · unfold ServeHTTP
    rw [h]
  · rfl

/-- Witness for C4 at a concrete cold state with a failing backend. -/
theorem c4_cold_fetch_failure_witness :
    ServeHTTP "k" (Except.error 9 : Except Nat Nat) 3
        (⟨[("j", 5)], [("j", 0)]⟩ : SpongeCache Nat) =
      some (⟨[("j", 5)], [("j", 0)]⟩, [Event.fetch, Event.handleError 9]) ∧
    ([Event.fetch, Event.handleError 9] : List (Event Nat Nat)).filter
      Event.isSpawn = [] :=
  c4_cold_fetch_failure Nat Nat "k" 9 3 ⟨[("j", 5)], [("j", 0)]⟩ (by decide)

/-- C2 (code bug): with TickTime = 1, TickCount = 3, CacheExtraExpiration = 2,
an entry whose LastUpdated is 0 has age 6 at the sweep at now = 6, which
exceeds the claimed threshold CacheExtraExpiration + TickTime * TickCount = 5,
yet the sweep keeps the entry: the deletion test at src/sponge.go line 54 adds
CacheExtraExpiration on both sides of the comparison, so the effective
threshold is 2 * CacheExtraExpiration + TickTime * TickCount = 7, contradicting
the spec and the struct doc comment that states the threshold as
(TickTime * TickCount) + CacheExtraExpiration. -/
theorem c2_expiry_threshold_bug :
    ((6 : Int) - 0 > 2 + 3 * 1) ∧
    do_cache_expiry_tick ⟨1, 3, 2, 1⟩ 6 (⟨[("k", 42)], [("k", 0)]⟩ : SpongeCache Nat) =
      ⟨[("k", 42)], [("k", 0)]⟩ := by
  decide

/-- C8: for every key evicted by the sweeper (its timestamp satisfies the
code's deletion test), the entry is removed from both the cache map and the
expiry map, and a request for that key immediately afterwards is a cold miss:
it performs exactly one backend fetch, installs the fresh result and spawns a
poll session rather than serving a cache hit. -/
theorem c8_eviction_cold_restart (Result Err : Type) (sh : SpongeHandler)
    (now now2 : Int) (key : String) (last : Int) (st : SpongeCache Result) (r : Result)
    (h1 : mapLookup st.cache_expire key = some last)
    (h2 : expireCond sh now last = true) :
    mapLookup (do_cache_expiry_tick sh now st).cache key = none ∧
    mapLookup (do_cache_expiry_tick sh now st).cache_expire key = none ∧
    ServeHTTP key (Except.ok r : Except Err Result) now2 (do_cache_expiry_tick sh now st) =
      some (SetCache key r now2 (do_cache_expiry_tick sh now st),
        [Event.fetch, Event.spawnPoll key, Event.write r]) ∧
    countFetch ([Event.fetch, Event.spawnPoll key, Event.write r] :
      List (Event Result Err)) = 1 := by
  have hmem : key ∈ mapKeys (st.cache_expire.filter (fun p => expireCond sh now p.2)) :=
    mem_mapKeys_filter_cond st.cache_expire (expireCond sh now) key last h1 h2
  have hc : mapLookup (do_cache_expiry_tick sh now st).cache key = none :=
    mapLookup_filter_of_mem st.cache _ key hmem
  refine ⟨hc, mapLookup_filter_of_mem st.cache_expire _ key hmem, ?_, rfl⟩
  exact ServeHTTP_cold_ok Result Err key r now2 _ hc

/-- Witness for C8 at a concrete state: key evicted at now = 20, then
re-requested. -/
theorem c8_eviction_cold_restart_witness :
    mapLookup (do_cache_expiry_tick ⟨1, 3, 2, 1⟩ 20
      (⟨[("k", 42)], [("k", 0)]⟩ : SpongeCache Nat)).cache "k" = none ∧
    mapLookup (do_cache_expiry_tick ⟨1, 3, 2, 1⟩ 20
      (⟨[("k", 42)], [("k", 0)]⟩ : SpongeCache Nat)).cache_expire "k" = none ∧
    ServeHTTP "k" (Except.ok 7 : Except Unit Nat) 21
        (do_cache_expiry_tick ⟨1, 3, 2, 1⟩ 20 (⟨[("k", 42)], [("k", 0)]⟩ : SpongeCache Nat)) =
      some (SetCache "k" 7 21
          (do_cache_expiry_tick ⟨1, 3, 2, 1⟩ 20 (⟨[("k", 42)], [("k", 0)]⟩ : SpongeCache Nat)),
        [Event.fetch, Event.spawnPoll "k", Event.write 7]) ∧
    countFetch ([Event.fetch, Event.spawnPoll "k", Event.write 7] :
      List (Event Nat Unit)) = 1 :=
  c8_eviction_cold_restart Nat Unit ⟨1, 3, 2, 1⟩ 20 21 "k" 0
    ⟨[("k", 42)], [("k", 0)]⟩ 7 (by decide) (by decide)

/-- C3 counterexample: Init called with a non-nil pre-populated initial cache
violates the invariant, because Init always resets cache_expire to a fresh
empty map (src/sponge.go line 44): the pre-populated key has no LastUpdated. -/
theorem c3_init_prepopulated_counterexample :
    ¬ CacheExpireCovers (Init (some [("k", (0 : Nat))])) := by
  decide

/-- C3 (amended): every key present in the cache map has an entry in the
cache_expire map; this invariant is established by Init when the initial cache
argument is nil or empty, and preserved by SetCache, ServeHTTP, check_tick and
the expiry sweep.  (Init with a non-empty pre-populated cache violates it,
since cache_expire is always reset to empty — see the counterexample.) -/
theorem c3_lastupdated_invariant_amended (Result Err : Type) :
    CacheExpireCovers (Init (none : Option (List (String × Result)))) ∧
    CacheExpireCovers (Init (some ([] : List (String × Result)))) ∧
    (∀ (key : String) (v : Result) (now : Int) (st : SpongeCache Result),
      CacheExpireCovers st → CacheExpireCovers (SetCache key v now st)) ∧
    (∀ (key : String) (fetch : Except Err Result) (now : Int)
      (st st2 : SpongeCache Result) (evs : List (Event Result Err)),
      ServeHTTP key fetch now st = some (st2, evs) →
      CacheExpireCovers st → CacheExpireCovers st2) ∧
    (∀ (sh : SpongeHandler) (Equal : Result → Result → Bool) (key : String)
      (fetch : Nat → Except Err Result) (now : Nat → Int)
      (st st2 : SpongeCache Result) (log2 : List (Event Result Err)),
      check_tick sh Equal key fetch now st = some (st2, log2) →
      CacheExpireCovers st → CacheExpireCovers st2) ∧
    (∀ (sh : SpongeHandler) (now : Int) (st : SpongeCache Result),
      CacheExpireCovers st → CacheExpireCovers (do_cache_expiry_tick sh now st)) := by
  refine ⟨?_, ?_, covers_SetCache, ?_, ?_, covers_expiry_tick⟩
  · intro k hk
    cases hk
  · intro k hk
    cases hk
  · intro key fetch now st st2 evs h hc
    rcases ServeHTTP_state_cases key fetch now st st2 evs h with rfl | ⟨r, rfl⟩
    · exact hc
    · exact covers_SetCache key r now st hc
  · intro sh Equal key fetch now st st2 log2 h hc
    exact covers_check_tick_aux Equal key fetch now sh.TickCount.toNat 0 st [] st2 log2 h hc

/-- Witness for C3 (amended), applying the SetCache preservation clause at a
concrete state. -/
theorem c3_lastupdated_invariant_witness :
    CacheExpireCovers (SetCache "k" (5 : Nat) 0 ⟨[], []⟩) :=
  (c3_lastupdated_invariant_amended Nat Unit).2.2.1 "k" 5 0 ⟨[], []⟩ (by decide)

/-- A poll attempt outcome that does not end the session when the cached value
is `v`: either the fetch fails, or it succeeds with a result Equal to `v`. -/
def SkipOutcome (Equal : Result → Result → Bool) (v : Result)
    (o : Except Err Result) : Prop :=
  (∃ e, o = Except.error e) ∨ (∃ ri, o = Except.ok ri ∧ Equal v ri = true)

theorem check_tick_aux_change (Equal : Result → Result → Bool) (key : String)
    (fetch : Nat → Except Err Result) (now : Nat → Int) (v r : Result) :
    ∀ (k i b : Nat) (st : SpongeCache Result) (log : List (Event Result Err)),
      mapLookup st.cache key = some v →
      (∀ j, j < k → SkipOutcome Equal v (fetch (i + j))) →
      fetch (i + k) = Except.ok r → Equal v r = false → k < b →
      ∃ log2, check_tick_aux Equal key fetch now i b st log =
          some (SetCache key r (now (i + k)) st, log2) ∧
        countFetch log2 = countFetch log + (k + 1) := by
  intro k
  induction k with
  | zero =>
    intro i b st log hv _ hr hne hb
    cases b with
    | zero => omega
    | succ b2 =>
      rw [Nat.add_zero] at hr
      refine ⟨log ++ [Event.fetch], ?_, ?_⟩
      · simp only [check_tick_aux, hr, hv, hne, Bool.false_eq_true, if_false,
          Nat.add_zero]
      · rw [countFetch_append]
        rfl
  | succ k ih =>
    intro i b st log hv hskip hr hne hb
    cases b with
    | zero => omega
    | succ b2 =>
      have hs0 := hskip 0 (Nat.succ_pos k)
      rw [Nat.add_zero] at hs0
      have hshift : ∀ j, j < k → SkipOutcome Equal v (fetch (i + 1 + j)) := by
        intro j hj
        rw [show i + 1 + j = i + (j + 1) from by omega]
        exact hskip (j + 1) (by omega)
      have hrs : fetch (i + 1 + k) = Except.ok r := by
        rw [show i + 1 + k = i + (k + 1) from by omega]
        exact hr
      rcases hs0 with ⟨e, he⟩ | ⟨ri, hri, heq⟩
      · obtain ⟨log2, h1, h2⟩ := ih (i + 1) b2 st
          (log ++ [Event.fetch, Event.logError e]) hv hshift hrs hne (by omega)
        refine ⟨log2, ?_, ?_⟩
        · simp only [check_tick_aux, he]
          rw [show i + (k + 1) = i + 1 + k from by omega]
          exact h1
        · rw [h2, countFetch_append]
          have hone : countFetch ([Event.fetch, Event.logError e] :
              List (Event Result Err)) = 1 := rfl
          omega
      · obtain ⟨log2, h1, h2⟩ := ih (i + 1) b2 st
          (log ++ [Event.fetch]) hv hshift hrs hne (by omega)
        refine ⟨log2, ?_, ?_⟩
        · simp only [check_tick_aux, hri, hv, heq, if_true]
          rw [show i + (k + 1) = i + 1 + k from by omega]
          exact h1
        · rw [h2, countFetch_append]
          have hone : countFetch ([Event.fetch] : List (Event Result Err)) = 1 := rfl
          omega

theorem check_tick_aux_exhaust (Equal : Result → Result → Bool) (key : String)
    (fetch : Nat → Except Err Result) (now : Nat → Int) (v : Result) :
    ∀ (b i : Nat) (st : SpongeCache Result) (log : List (Event Result Err)),
      mapLookup st.cache key = some v →
      (∀ j, j < b → ∃ rj, fetch (i + j) = Except.ok rj ∧ Equal v rj = true) →
      ∃ log2, check_tick_aux Equal key fetch now i b st log = some (st, log2) ∧
        countFetch log2 = countFetch log + b := by
  intro b
  induction b with
  | zero =>
    intro i st log _ _
    exact ⟨log, rfl, by omega⟩
  | succ b ih =>
    intro i st log hv hall
    obtain ⟨r0, hr0, heq0⟩ := hall 0 (Nat.succ_pos b)
    rw [Nat.add_zero] at hr0
    have hshift : ∀ j, j < b → ∃ rj, fetch (i + 1 + j) = Except.ok rj ∧
        Equal v rj = true := by
      intro j hj
      rw [show i + 1 + j = i + (j + 1) from by omega]
      exact hall (j + 1) (by omega)
    obtain ⟨log2, h1, h2⟩ := ih (i + 1) st (log ++ [Event.fetch]) hv hshift
    refine ⟨log2, ?_, ?_⟩
    · simp only [check_tick_aux, hr0, hv, heq0, if_true]
      exact h1
    · rw [h2, countFetch_append]
      have hone : countFetch ([Event.fetch] : List (Event Result Err)) = 1 := rfl
      omega

/-- C5: in every poll session whose attempts 1..k-1 do not end the session
(each fails or returns a result Equal to the cached value v) and whose attempt
k (1-based, k ≤ TickCount) succeeds with a result r not Equal to v, check_tick
installs r via SetCache with LastUpdated reset to the time of attempt k and
terminates: exactly k fetches occur, none after attempt k. -/
theorem c5_poll_change (Result Err : Type) (sh : SpongeHandler)
    (Equal : Result → Result → Bool) (key : String)
    (fetch : Nat → Except Err Result) (now : Nat → Int) (st : SpongeCache Result)
    (v r : Result) (k : Nat)
    (hv : mapLookup st.cache key = some v)
    (hk1 : 1 ≤ k) (hk2 : k ≤ sh.TickCount.toNat)
    (hskip : ∀ j, j < k - 1 → SkipOutcome Equal v (fetch j))
    (hr : fetch (k - 1) = Except.ok r) (hne : Equal v r = false) :
    ∃ log, check_tick sh Equal key fetch now st =
        some (SetCache key r (now (k - 1)) st, log) ∧
      countFetch log = k := by
  have hskip0 : ∀ j, j < k - 1 → SkipOutcome Equal v (fetch (0 + j)) := by
    intro j hj
    rw [Nat.zero_add]
    exact hskip j hj
  have hr0 : fetch (0 + (k - 1)) = Except.ok r := by
    rw [Nat.zero_add]
    exact hr
  obtain ⟨log2, h1, h2⟩ := check_tick_aux_change Equal key fetch now v r (k - 1) 0
    sh.TickCount.toNat st [] hv hskip0 hr0 hne (by omega)
  rw [Nat.zero_add] at h1
  refine ⟨log2, h1, ?_⟩
  have hnil : countFetch ([] : List (Event Result Err)) = 0 := rfl
  omega

/-- Witness for C5: TickCount = 3, cached value 5; attempt 1 returns 5 (equal,
session continues), attempt 2 returns 7 (unequal): the new value is installed
with the attempt-2 timestamp and exactly 2 fetches occur. -/
theorem c5_poll_change_witness :
    ∃ log, check_tick ⟨1, 3, 2, 1⟩ (fun a b => a == b) "k"
        ((fun i => if i = 0 then Except.ok 5 else Except.ok 7) : Nat → Except Nat Nat)
        (fun i => (i : Int)) (⟨[("k", 5)], [("k", 0)]⟩ : SpongeCache Nat) =
        some (SetCache "k" 7 1 (⟨[("k", 5)], [("k", 0)]⟩ : SpongeCache Nat), log) ∧
      countFetch log = 2 :=
  c5_poll_change Nat Nat ⟨1, 3, 2, 1⟩ (fun a b => a == b) "k"
    (fun i => if i = 0 then Except.ok 5 else Except.ok 7) (fun i => (i : Int))
    ⟨[("k", 5)], [("k", 0)]⟩ 5 7 2 (by decide) (by omega) (by decide)
    (by
      intro j hj
      have hj0 : j = 0 := by omega
      subst hj0
      exact Or.inr ⟨5, rfl, rfl⟩)
    rfl (by decide)

/-- C6: in every poll session where all TickCount attempts succeed and return
results Equal to the cached value, check_tick terminates after exactly
TickCount fetches with the store unchanged: the state returned is the input
state, so the cached value and its LastUpdated are untouched. -/
theorem c6_poll_exhaustion (Result Err : Type) (sh : SpongeHandler)
    (Equal : Result → Result → Bool) (key : String)
    (fetch : Nat → Except Err Result) (now : Nat → Int) (st : SpongeCache Result)
    (v : Result)
    (hv : mapLookup st.cache key = some v)
    (hall : ∀ j, j < sh.TickCount.toNat →
      ∃ rj, fetch j = Except.ok rj ∧ Equal v rj = true) :
    ∃ log, check_tick sh Equal key fetch now st = some (st, log) ∧
      countFetch log = sh.TickCount.toNat := by
  have hall0 : ∀ j, j < sh.TickCount.toNat →
      ∃ rj, fetch (0 + j) = Except.ok rj ∧ Equal v rj = true := by
    intro j hj
    rw [Nat.zero_add]
    exact hall j hj
  obtain ⟨log2, h1, h2⟩ := check_tick_aux_exhaust Equal key fetch now v
    sh.TickCount.toNat 0 st [] hv hall0
  refine ⟨log2, h1, ?_⟩
  have hnil : countFetch ([] : List (Event Result Err)) = 0 := rfl
  omega

/-- Witness for C6: TickCount = 3, cached value 5, every attempt returns 5:
after exactly 3 fetches the session ends with the store untouched. -/
theorem c6_poll_exhaustion_witness :
    ∃ log, check_tick ⟨1, 3, 2, 1⟩ (fun a b => a == b) "k"
        ((fun _ => Except.ok 5) : Nat → Except Nat Nat) (fun i => (i : Int))
        (⟨[("k", 5)], [("k", 0)]⟩ : SpongeCache Nat) =
        some ((⟨[("k", 5)], [("k", 0)]⟩ : SpongeCache Nat), log) ∧
      countFetch log = 3 :=
  c6_poll_exhaustion Nat Nat ⟨1, 3, 2, 1⟩ (fun a b => a == b) "k"
    (fun _ => Except.ok 5) (fun i => (i : Int)) ⟨[("k", 5)], [("k", 0)]⟩ 5
    (by decide) (fun j _ => ⟨5, rfl, rfl⟩)

/-- C7: a poll attempt whose backend fetch fails is logged (a logError event
is appended after the fetch event), consumes exactly one unit of the attempt
budget, leaves the store unchanged, and does not end the session: the loop
continues at the next attempt, and when the budget is not exhausted that next
attempt still occurs — here, with budget at least two, the next attempt
succeeds with an unequal result and installs it. -/
theorem c7_poll_attempt_failure (Result Err : Type)
    (Equal : Result → Result → Bool) (key : String)
    (fetch : Nat → Except Err Result) (now : Nat → Int) (i b : Nat)
    (st : SpongeCache Result) (log : List (Event Result Err)) (e : Err)
    (r v : Result)
    (he : fetch i = Except.error e)
    (hr : fetch (i + 1) = Except.ok r)
    (hv : mapLookup st.cache key = some v)
    (hne : Equal v r = false) :
    check_tick_aux Equal key fetch now i (b + 1) st log =
      check_tick_aux Equal key fetch now (i + 1) b st
        (log ++ [Event.fetch, Event.logError e]) ∧
    check_tick_aux Equal key fetch now i (1 + 1) st log =
      some (SetCache key r (now (i + 1)) st,
        log ++ [Event.fetch, Event.logError e, Event.fetch]) := by
  constructor
  · simp only [check_tick_aux, he]
  · simp only [check_tick_aux, he, hr, hv, hne, Bool.false_eq_true, if_false,
      List.append_assoc]
    rfl

/-- Witness for C7 at a concrete session: attempt 1 fails, store untouched,
attempt 2 runs and installs. -/
theorem c7_poll_attempt_failure_witness :
    check_tick_aux (fun a b => a == b) "k"
        (fun i => if i = 0 then Except.error 9 else Except.ok 7)
        (fun i => (i : Int)) 0 (2 + 1) (⟨[("k", 5)], [("k", 0)]⟩ : SpongeCache Nat) [] =
      check_tick_aux (fun a b => a == b) "k"
        (fun i => if i = 0 then Except.error 9 else Except.ok 7)
        (fun i => (i : Int)) (0 + 1) 2 (⟨[("k", 5)], [("k", 0)]⟩ : SpongeCache Nat)
        ([] ++ [Event.fetch, Event.logError 9]) ∧
    check_tick_aux (fun a b => a == b) "k"
        (fun i => if i = 0 then Except.error 9 else Except.ok 7)
        (fun i => (i : Int)) 0 (1 + 1) (⟨[("k", 5)], [("k", 0)]⟩ : SpongeCache Nat) [] =
      some (SetCache "k" 7 1 (⟨[("k", 5)], [("k", 0)]⟩ : SpongeCache Nat),
        [] ++ [Event.fetch, Event.logError 9, Event.fetch]) :=
  c7_poll_attempt_failure Nat Nat (fun a b => a == b) "k"
    (fun i => if i = 0 then Except.error 9 else Except.ok 7) (fun i => (i : Int))
    0 2 ⟨[("k", 5)], [("k", 0)]⟩ [] 9 7 5 rfl rfl (by decide) (by decide)

/-- C10: the poll loop's read of the cached value is an unguarded map access.
On a successful poll attempt with the key absent from the cache (e.g. evicted
by the sweeper before the attempt), the nil-interface Equal call faults
(modelled as the poll step returning none); when the key is present the loop
never faults (it always returns some outcome). -/
theorem c10_unguarded_poll_lookup (Result Err : Type) :
    (∀ (Equal : Result → Result → Bool) (key : String)
      (fetch : Nat → Except Err Result) (now : Nat → Int) (i b : Nat)
      (st : SpongeCache Result) (log : List (Event Result Err)) (r : Result),
      fetch i = Except.ok r → mapLookup st.cache key = none →
      check_tick_aux Equal key fetch now i (b + 1) st log = none) ∧
    (∀ (Equal : Result → Result → Bool) (key : String)
      (fetch : Nat → Except Err Result) (now : Nat → Int) (b i : Nat)
      (st : SpongeCache Result) (log : List (Event Result Err)) (v : Result),
      mapLookup st.cache key = some v →
      ∃ out, check_tick_aux Equal key fetch now i b st log = some out) := by
  constructor
  · intro Equal key fetch now i b st log r hf hl
    simp only [check_tick_aux, hf, hl]
  · intro Equal key fetch now b
    induction b with
    | zero =>
      intro i st log v _
      exact ⟨(st, log), rfl⟩
    | succ b ih =>
      intro i st log v hv
      cases hf : fetch i with
      | error e =>
        obtain ⟨out, hout⟩ := ih (i + 1) st (log ++ [Event.fetch, Event.logError e]) v hv
        refine ⟨out, ?_⟩
        simp only [check_tick_aux, hf]
        exact hout
      | ok r =>
        by_cases he : Equal v r = true
        · obtain ⟨out, hout⟩ := ih (i + 1) st (log ++ [Event.fetch]) v hv
          refine ⟨out, ?_⟩
          simp only [check_tick_aux, hf, hv, he, if_true]
          exact hout
        · have he2 : Equal v r = false := by
            simpa using he
          refine ⟨(SetCache key r (now i) st, log ++ [Event.fetch]), ?_⟩
          simp only [check_tick_aux, hf, hv, he2, Bool.false_eq_true, if_false]

/-- Witness for C10: with the key absent (as after an eviction), a successful
poll attempt faults. -/
theorem c10_unguarded_poll_lookup_witness :
    check_tick_aux (fun a b => a == b) "k" (fun _ => Except.ok 7)
      (fun i => (i : Int)) 0 (2 + 1) (⟨[], []⟩ : SpongeCache Nat)
      ([] : List (Event Nat Nat)) = none :=
  (c10_unguarded_poll_lookup Nat Nat).1 (fun a b => a == b) "k"
    (fun _ => Except.ok 7) (fun i => (i : Int)) 0 2 ⟨[], []⟩ [] 7 rfl rfl

/-!
Interleaving model of concurrent ServeHTTP executions (src/sponge.go lines
91-113).  Each inbound request is a thread; a scheduler picks which thread
performs its next atomic step.  The handler has ONE mutex (`sh.mutex`, line
19), acquired at line 94 before the cache lookup and released at line 102
(error path) or line 111, i.e. it is held ACROSS the backend fetch of a cold
miss.  The phases of a thread:

* `start`: before `sh.mutex.Lock()` (line 94).  The step acquires the mutex;
  while another thread holds it, the thread has no enabled step (it blocks).
* `locked`: holding the mutex, about to read `sh.cache[key]` (line 95).  On a
  hit the code skips to line 111: unlock and go write the value.  On a miss it
  proceeds to the backend request, still holding the mutex.
* `fetching`: holding the mutex, its `MakeBackendRequest` (line 98) in flight;
  the step resolves the call with `backend key`.  Error: HandleError and
  unlock (lines 101-103).  Ok: SetCache, re-read the entry, `go check_tick`
  (recorded as a spawnPoll event), unlock, go write (lines 105-112).
* `writing v`: past the unlock, `value.WriteToHTTP` (line 112) pending.
* `done v` / `doneErr e`: the request finished, having written `v` /
  reported `e`.  `faulted` is the unreachable nil write after a fresh install.
-/

/-- Control state of one in-flight ServeHTTP execution. -/
inductive Phase (Result Err : Type) where
  | start
  | locked
  | fetching
  | writing (v : Result)
  | done (v : Result)
  | doneErr (e : Err)
  | faulted
deriving DecidableEq, Repr

/-- Did the request finish by writing a response value? -/
def Phase.isDone : Phase Result Err → Bool
  | .done _ => true
  | _ => false

/-- Is this a phase that holds the handler mutex? -/
def Phase.holdsMutex : Phase Result Err → Bool
  | .locked => true
  | .fetching => true
  | _ => false

/-- Global state of the interleaving model: the shared maps, the single
handler-wide mutex (none = free, some tid = held by that thread), one thread
per concurrent request (its resolved cache key and phase), and the trace. -/
structure Sys (Result Err : Type) where
  store : SpongeCache Result
  mutexHeld : Option Nat
  threads : List (String × Phase Result Err)
  events : List (Event Result Err)
deriving DecidableEq, Repr

/-- One atomic step of thread `tid`; `none` when that thread has no enabled
step (it is blocked on the mutex, finished, or does not exist). -/
def step (backend : String → Except Err Result) (now : Int)
    (sys : Sys Result Err) (tid : Nat) : Option (Sys Result Err) :=
  match sys.threads[tid]? with
  | none => none
  | some (key, ph) =>
    match ph with
    | .start =>
      match sys.mutexHeld with
      | some _ => none
      | none =>
        some { sys with
          mutexHeld := some tid,
          threads := sys.threads.set tid (key, Phase.locked) }
    | .locked =>
      match mapLookup sys.store.cache key with
      | some v =>
        some { sys with
          mutexHeld := none,
          threads := sys.threads.set tid (key, Phase.writing v) }
      | none =>
        some { sys with
          threads := sys.threads.set tid (key, Phase.fetching) }
    | .fetching =>
      match backend key with
      | .error e =>
        some { sys with
          mutexHeld := none,
          threads := sys.threads.set tid (key, Phase.doneErr e),
          events := sys.events ++ [Event.fetch, Event.handleError e] }
      | .ok r =>
        let st1 := SetCache key r now sys.store
        match mapLookup st1.cache key with
        | some v =>
          some { sys with
            store := st1,
            mutexHeld := none,
            threads := sys.threads.set tid (key, Phase.writing v),
            events := sys.events ++ [Event.fetch, Event.spawnPoll key] }
        | none =>
          some { sys with
            store := st1,
            threads := sys.threads.set tid (key, Phase.faulted),
            events := sys.events ++ [Event.fetch] }
    | .writing v =>
      some { sys with
        threads := sys.threads.set tid (key, Phase.done v),
        events := sys.events ++ [Event.write v] }
    | .done _ => none
    | .doneErr _ => none
    | .faulted => none

/-- Run a schedule: apply the chosen thread's step at each slot; a pick whose
thread has no enabled step leaves the state unchanged (the thread waits). -/
def run (backend : String → Except Err Result) (now : Int)
    (sched : List Nat) (sys : Sys Result Err) : Sys Result Err :=
  sched.foldl (fun s tid => (step backend now s tid).getD s) sys

/-- Initial state for n concurrent requests that all resolve to `key`,
against the store `st`. -/
def initSys (key : String) (n : Nat) (st : SpongeCache Result) : Sys Result Err :=
  { store := st, mutexHeld := none,
    threads := List.replicate n (key, Phase.start), events := [] }

theorem set_forall_getElem (l : List (String × Phase Result Err)) (tid : Nat)
    (x : String × Phase Result Err) (P : String × Phase Result Err → Prop)
    (hall : ∀ (j : Nat) (t : String × Phase Result Err),
      j ≠ tid → l[j]? = some t → P t) (hx : P x) :
    ∀ (j : Nat) (t : String × Phase Result Err),
      (l.set tid x)[j]? = some t → P t := by
  intro j t hj
  by_cases hjt : j = tid
  · subst hjt
    rcases Nat.lt_or_ge j l.length with hlt | hge
    · rw [List.getElem?_set_eq_of_lt x hlt] at hj
      cases hj
      exact hx
    · rw [List.getElem?_eq_none (by simpa using hge)] at hj
      exact Option.noConfusion hj
  · rw [List.getElem?_set_ne (fun he => hjt he.symm)] at hj
    exact hall j t hjt hj

/-- Mutex coherence: when the handler mutex is free no thread is in a
mutex-holding phase; when held by thread i, thread i exists, is in a
mutex-holding phase, and no other thread is. -/
def MutexInv (sys : Sys Result Err) : Prop :=
  (sys.mutexHeld = none → ∀ (j : Nat) (t : String × Phase Result Err),
    sys.threads[j]? = some t → t.2.holdsMutex = false) ∧
  (∀ i : Nat, sys.mutexHeld = some i →
    (∃ t, sys.threads[i]? = some t ∧ t.2.holdsMutex = true) ∧
    ∀ (j : Nat) (t : String × Phase Result Err),
      j ≠ i → sys.threads[j]? = some t → t.2.holdsMutex = false)

/-- Phases a same-key thread can be in while the key is still cold. -/
def ColdPhase (ph : Phase Result Err) : Prop :=
  ph = Phase.start ∨ ph = Phase.locked ∨ ph = Phase.fetching

/-- Phases a same-key thread can be in once the key is warm with value r. -/
def WarmPhase (r : Result) (ph : Phase Result Err) : Prop :=
  ph = Phase.start ∨ ph = Phase.locked ∨ ph = Phase.writing r ∨ ph = Phase.done r

/-- Invariant of the interleaving model for n concurrent requests on the same
cold key whose backend fetch yields r: every thread is for that key, the
mutex is coherent, and either the key is still cold (no fetch recorded, all
threads before their fetch completion) or it is warm with value r (exactly
one fetch recorded, every thread either waiting, writing r, or done r). -/
def SingleFlightInv (key : String) (r : Result) (sys : Sys Result Err) : Prop :=
  (∀ (j : Nat) (t : String × Phase Result Err),
    sys.threads[j]? = some t → t.1 = key) ∧
  MutexInv sys ∧
  ((mapLookup sys.store.cache key = none ∧ countFetch sys.events = 0 ∧
    ∀ (j : Nat) (t : String × Phase Result Err),
      sys.threads[j]? = some t → ColdPhase t.2) ∨
   (mapLookup sys.store.cache key = some r ∧ countFetch sys.events = 1 ∧
    ∀ (j : Nat) (t : String × Phase Result Err),
      sys.threads[j]? = some t → WarmPhase r t.2))

theorem singleFlightInv_step (backend : String → Except Err Result) (now : Int)
    (key : String) (r : Result) (sys : Sys Result Err) (tid : Nat)
    (hb : backend key = Except.ok r)
    (hinv : SingleFlightInv key r sys) :
    SingleFlightInv key r ((step backend now sys tid).getD sys) := by
  cases hstep : step backend now sys tid with
  | none =>
    exact hinv
  | some sys2 =>
    show SingleFlightInv key r sys2
    obtain ⟨hkeys, hmutex, hstate⟩ := hinv
    cases hget : sys.threads[tid]? with
    | none =>
      simp only [step, hget] at hstep
      exact Option.noConfusion hstep
    | some t =>
      obtain ⟨kj, ph⟩ := t
      have hk : kj = key := hkeys tid (kj, ph) hget
      subst kj
      have htlen : tid < sys.threads.length := (List.getElem?_eq_some.mp hget).1
      cases ph with
      | start =>
        cases hm : sys.mutexHeld with
        | some i =>
          simp only [step, hget, hm] at hstep
          exact Option.noConfusion hstep
        | none =>
          simp only [step, hget, hm, Option.some.injEq] at hstep
          subst hstep
          refine ⟨?_, ⟨?_, ?_⟩, ?_⟩
          · exact set_forall_getElem _ tid _ _ (fun j t _ hjt => hkeys j t hjt) rfl
          · intro h
            exact Option.noConfusion h
          · intro i hi
            have hi2 : tid = i := by
              injection hi
            subst hi2
            refine ⟨⟨(key, Phase.locked), List.getElem?_set_eq_of_lt _ htlen, rfl⟩, ?_⟩
            intro j t hne hjt
            rw [List.getElem?_set_ne (fun he => hne he.symm)] at hjt
            exact hmutex.1 hm j t hjt
          · rcases hstate with ⟨hlook, hcnt, hph⟩ | ⟨hlook, hcnt, hph⟩
            · exact Or.inl ⟨hlook, hcnt,
                set_forall_getElem _ tid _ _ (fun j t _ hjt => hph j t hjt)
                  (Or.inr (Or.inl rfl))⟩
            · exact Or.inr ⟨hlook, hcnt,
                set_forall_getElem _ tid _ _ (fun j t _ hjt => hph j t hjt)
                  (Or.inr (Or.inl rfl))⟩
      | locked =>
        have hheld : sys.mutexHeld = some tid := by
          cases hm : sys.mutexHeld with
          | none =>
            have := hmutex.1 hm tid (key, Phase.locked) hget
            simp [Phase.holdsMutex] at this
          | some i =>
            by_cases hit : tid = i
            · rw [hit]
            · have := (hmutex.2 i hm).2 tid (key, Phase.locked) hit hget
              simp [Phase.holdsMutex] at this
        rcases hstate with ⟨hlook, hcnt, hph⟩ | ⟨hlook, hcnt, hph⟩
        · -- cold: the lookup misses, the thread proceeds to fetch, mutex kept
          simp only [step, hget, hlook, Option.some.injEq] at hstep
          subst hstep
          refine ⟨?_, ⟨?_, ?_⟩, ?_⟩
          · exact set_forall_getElem _ tid _ _ (fun j t _ hjt => hkeys j t hjt) rfl
          · intro h
            rw [hheld] at h
            exact Option.noConfusion h
          · intro i hi
            rw [hheld] at hi
            have hi2 : tid = i := by
              injection hi
            subst hi2
            refine ⟨⟨(key, Phase.fetching), List.getElem?_set_eq_of_lt _ htlen, rfl⟩, ?_⟩
            intro j t hne hjt
            rw [List.getElem?_set_ne (fun he => hne he.symm)] at hjt
            exact (hmutex.2 tid hheld).2 j t hne hjt
          · exact Or.inl ⟨hlook, hcnt,
              set_forall_getElem _ tid _ _ (fun j t _ hjt => hph j t hjt)
                (Or.inr (Or.inr rfl))⟩
        · -- warm: the lookup hits r, the thread unlocks and goes to write r
          simp only [step, hget, hlook, Option.some.injEq] at hstep
          subst hstep
          refine ⟨?_, ⟨?_, ?_⟩, ?_⟩
          · exact set_forall_getElem _ tid _ _ (fun j t _ hjt => hkeys j t hjt) rfl
          · intro _ j t hjt
            refine set_forall_getElem _ tid (key, Phase.writing r)
              (fun t => t.2.holdsMutex = false)
              (fun j t hne hjt => (hmutex.2 tid hheld).2 j t hne hjt) rfl j t hjt
          · intro i hi
            exact Option.noConfusion hi
          · exact Or.inr ⟨hlook, hcnt,
              set_forall_getElem _ tid _ _ (fun j t _ hjt => hph j t hjt)
                (Or.inr (Or.inr (Or.inl rfl)))⟩
      | fetching =>
        have hheld : sys.mutexHeld = some tid := by
          cases hm : sys.mutexHeld with
          | none =>
            have := hmutex.1 hm tid (key, Phase.fetching) hget
            simp [Phase.holdsMutex] at this
          | some i =>
            by_cases hit : tid = i
            · rw [hit]
            · have := (hmutex.2 i hm).2 tid (key, Phase.fetching) hit hget
              simp [Phase.holdsMutex] at this
        rcases hstate with ⟨hlook, hcnt, hph⟩ | ⟨hlook, hcnt, hph⟩
        · -- cold: the fetch completes with r, installs it, unlocks
          simp only [step, hget, hb, SetCache, mapLookup_mapInsert_self,
            Option.some.injEq] at hstep
          subst hstep
          refine ⟨?_, ⟨?_, ?_⟩, ?_⟩
          · exact set_forall_getElem _ tid _ _ (fun j t _ hjt => hkeys j t hjt) rfl
          · intro _ j t hjt
            refine set_forall_getElem _ tid (key, Phase.writing r)
              (fun t => t.2.holdsMutex = false)
              (fun j t hne hjt => (hmutex.2 tid hheld).2 j t hne hjt) rfl j t hjt
          · intro i hi
            exact Option.noConfusion hi
          · refine Or.inr ⟨mapLookup_mapInsert_self _ _ _, ?_, ?_⟩
            · rw [countFetch_append, hcnt]
              rfl
            · refine set_forall_getElem _ tid _ _ ?_ (Or.inr (Or.inr (Or.inl rfl)))
              intro j t hne hjt
              have hnh := (hmutex.2 tid hheld).2 j t hne hjt
              rcases hph j t hjt with h1 | h1 | h1
              · exact Or.inl h1
              · rw [h1] at hnh
                simp [Phase.holdsMutex] at hnh
              · rw [h1] at hnh
                simp [Phase.holdsMutex] at hnh
        · -- warm excludes a fetching thread
          rcases hph tid (key, Phase.fetching) hget with h1 | h1 | h1 | h1 <;>
            exact Phase.noConfusion h1
      | writing v =>
        have hv : v = r := by
          rcases hstate with ⟨hlook, hcnt, hph⟩ | ⟨hlook, hcnt, hph⟩
          · rcases hph tid (key, Phase.writing v) hget with h1 | h1 | h1 <;>
              exact Phase.noConfusion h1
          · rcases hph tid (key, Phase.writing v) hget with h1 | h1 | h1 | h1
            · exact Phase.noConfusion h1
            · exact Phase.noConfusion h1
            · injection h1
            · exact Phase.noConfusion h1
        subst v
        rcases hstate with ⟨hlook, hcnt, hph⟩ | ⟨hlook, hcnt, hph⟩
        · rcases hph tid (key, Phase.writing r) hget with h1 | h1 | h1 <;>
            exact Phase.noConfusion h1
        · simp only [step, hget, Option.some.injEq] at hstep
          subst hstep
          refine ⟨?_, ⟨?_, ?_⟩, ?_⟩
          · exact set_forall_getElem _ tid _ _ (fun j t _ hjt => hkeys j t hjt) rfl
          · intro h j t hjt
            refine set_forall_getElem _ tid (key, Phase.done r)
              (fun t => t.2.holdsMutex = false)
              (fun j t _ hjt => hmutex.1 h j t hjt) rfl j t hjt
          · intro i hi
            obtain ⟨⟨ti, hti, htih⟩, hothers⟩ := hmutex.2 i hi
            have hitid : i ≠ tid := by
              intro he
              subst he
              rw [hget] at hti
              cases hti
              simp [Phase.holdsMutex] at htih
            refine ⟨⟨ti, ?_, htih⟩, ?_⟩
            · rw [List.getElem?_set_ne (fun he => hitid he.symm)]
              exact hti
            · intro j t hne hjt
              by_cases hjtid : j = tid
              · subst hjtid
                rw [List.getElem?_set_eq_of_lt _ htlen] at hjt
                cases hjt
                rfl
              · rw [List.getElem?_set_ne (fun he => hjtid he.symm)] at hjt
                exact hothers j t hne hjt
          · refine Or.inr ⟨hlook, ?_, ?_⟩
            · rw [countFetch_append, hcnt]
              rfl
            · exact set_forall_getElem _ tid _ _ (fun j t _ hjt => hph j t hjt)
                (Or.inr (Or.inr (Or.inr rfl)))
      | done v =>
        simp only [step, hget] at hstep
        exact Option.noConfusion hstep
      | doneErr e =>
        simp only [step, hget] at hstep
        exact Option.noConfusion hstep
      | faulted =>
        simp only [step, hget] at hstep
        exact Option.noConfusion hstep

theorem singleFlightInv_init (key : String) (r : Result) (n : Nat)
    (st : SpongeCache Result) (hcold : mapLookup st.cache key = none) :
    SingleFlightInv key r (initSys key n st : Sys Result Err) := by
  have hrep : ∀ (j : Nat) (t : String × Phase Result Err),
      (List.replicate n (key, Phase.start))[j]? = some t → t = (key, Phase.start) := by
    intro j t hj
    rw [List.getElem?_replicate] at hj
    split at hj
    · cases hj
      rfl
    · exact Option.noConfusion hj
  refine ⟨?_, ⟨?_, ?_⟩, Or.inl ⟨hcold, rfl, ?_⟩⟩
  · intro j t hj
    rw [hrep j t hj]
  · intro _ j t hj
    rw [hrep j t hj]
    rfl
  · intro i hi
    exact Option.noConfusion hi
  · intro j t hj
    rw [hrep j t hj]
    exact Or.inl rfl

theorem singleFlightInv_run (backend : String → Except Err Result) (now : Int)
    (key : String) (r : Result) (hb : backend key = Except.ok r) :
    ∀ (sched : List Nat) (sys : Sys Result Err), SingleFlightInv key r sys →
      SingleFlightInv key r (run backend now sched sys) := by
  intro sched
  induction sched with
  | nil =>
    intro sys h
    exact h
  | cons tid rest ih =>
    intro sys h
    exact ih _ (singleFlightInv_step backend now key r sys tid hb h)

theorem step_threads_length (backend : String → Except Err Result) (now : Int)
    (sys sys2 : Sys Result Err) (tid : Nat)
    (h : step backend now sys tid = some sys2) :
    sys2.threads.length = sys.threads.length := by
  unfold step at h
  split at h
  · exact Option.noConfusion h
  · split at h
    · split at h
      · exact Option.noConfusion h
      · cases h
        simp
    · split at h
      · cases h
        simp
      · cases h
        simp
    · split at h
      · cases h
        simp
      · simp only [SetCache, mapLookup_mapInsert_self] at h
        cases h
        simp
    · cases h
      simp
    · exact Option.noConfusion h
    · exact Option.noConfusion h
    · exact Option.noConfusion h

theorem run_threads_length (backend : String → Except Err Result) (now : Int) :
    ∀ (sched : List Nat) (sys : Sys Result Err),
      (run backend now sched sys).threads.length = sys.threads.length := by
  intro sched
  induction sched with
  | nil =>
    intro sys
    rfl
  | cons tid rest ih =>
    intro sys
    show (run backend now rest ((step backend now sys tid).getD sys)).threads.length = _
    rw [ih]
    cases hstep : step backend now sys tid with
    | none => rfl
    | some sys2 => exact step_threads_length backend now sys sys2 tid hstep

/-- Backend for the C1 counterexample: two distinct keys with distinct
successful results. -/
def backendAB : String → Except Unit Nat :=
  fun s => if s = "a" then Except.ok 1 else Except.ok 2

/-- Two concurrent requests for the distinct cold keys "a" and "b". -/
def sysAB : Sys Nat Unit :=
  { store := ⟨[], []⟩, mutexHeld := none,
    threads := [("a", Phase.start), ("b", Phase.start)], events := [] }

/-- C1 counterexample.  First conjunct: after two steps of thread 0, thread 0
(key "a") holds the single handler-wide mutex with its backend fetch in
flight, and thread 1 (key "b", a different key) has no enabled step — it is
blocked on thread 0's fetch, refuting that callers for different keys never
block on each other (the mutex at src/sponge.go line 94 is one lock shared
across all keys and is held across MakeBackendRequest).  Second conjunct:
when the backend fails, two concurrent requests for the same cold key invoke
MakeBackendRequest twice (once per caller), refuting that the fetch is
invoked exactly once for every N concurrent cold requests — that holds only
when the fetch succeeds and installs the entry. -/
theorem c1_single_flight_counterexample :
    ((run backendAB 0 [0, 0] sysAB).threads[0]? = some ("a", Phase.fetching) ∧
     (run backendAB 0 [0, 0] sysAB).threads[1]? = some ("b", Phase.start) ∧
     step backendAB 0 (run backendAB 0 [0, 0] sysAB) 1 = none) ∧
    countFetch (run (fun _ => Except.error ()) 0 [0, 0, 0, 1, 1, 1]
      (initSys "k" 2 (⟨[], []⟩ : SpongeCache Nat) : Sys Nat Unit)).events = 2 := by
  decide

/-- C1 (amended): for every schedule of N concurrent requests for the same
cold key whose backend fetch succeeds with r, once all requests have
completed, MakeBackendRequest was invoked exactly once and every request
received the same Result r.  (The discipline is a single handler-wide mutex
held across the fetch, so requests for different keys can block on each
other, and a failing cold fetch is re-performed by each caller — see the
counterexample.) -/
theorem c1_single_flight_amended (Result Err : Type)
    (backend : String → Except Err Result) (now : Int) (key : String) (r : Result)
    (n : Nat) (st0 : SpongeCache Result) (sched : List Nat)
    (hb : backend key = Except.ok r) (hn : 0 < n)
    (hcold : mapLookup st0.cache key = none)
    (hdone : ∀ p ∈ (run backend now sched (initSys key n st0 : Sys Result Err)).threads,
      p.2.isDone = true) :
    countFetch (run backend now sched (initSys key n st0 : Sys Result Err)).events = 1 ∧
    ∀ p ∈ (run backend now sched (initSys key n st0 : Sys Result Err)).threads,
      p.2 = Phase.done r := by
  obtain ⟨hkeys, hmutex, hstate⟩ := singleFlightInv_run backend now key r hb sched _
    (singleFlightInv_init key r n st0 hcold)
  have hlen : (run backend now sched (initSys key n st0 : Sys Result Err)).threads.length
      = n := by
    rw [run_threads_length]
    simp [initSys]
  have hlt : 0 < (run backend now sched
      (initSys key n st0 : Sys Result Err)).threads.length := by
    rw [hlen]
    exact hn
  obtain ⟨t0, ht0⟩ : ∃ t, (run backend now sched
      (initSys key n st0 : Sys Result Err)).threads[0]? = some t :=
    ⟨_, List.getElem?_eq_getElem hlt⟩
  have ht0done := hdone t0 (List.mem_iff_getElem?.mpr ⟨0, ht0⟩)
  rcases hstate with ⟨hlook, hcnt, hph⟩ | ⟨hlook, hcnt, hph⟩
  · rcases hph 0 t0 ht0 with h1 | h1 | h1 <;>
      (rw [h1] at ht0done; exact Bool.noConfusion ht0done)
  · refine ⟨hcnt, ?_⟩
    intro p hp
    have hpd := hdone p hp
    obtain ⟨j, hj⟩ := List.mem_iff_getElem?.mp hp
    rcases hph j p hj with h1 | h1 | h1 | h1
    · rw [h1] at hpd
      exact Bool.noConfusion hpd
    · rw [h1] at hpd
      exact Bool.noConfusion hpd
    · rw [h1] at hpd
      exact Bool.noConfusion hpd
    · exact h1

/-- Witness for C1 (amended): two concurrent requests for the cold key "k",
scheduled so that thread 0 performs the whole cold path and thread 1 then
hits the warm cache: one fetch, both requests done with result 5. -/
theorem c1_single_flight_witness :
    countFetch (run (fun _ => Except.ok 5) 0 [0, 0, 0, 0, 1, 1, 1]
      (initSys "k" 2 (⟨[], []⟩ : SpongeCache Nat) : Sys Nat Unit)).events = 1 ∧
    ∀ p ∈ (run (fun _ => Except.ok 5) 0 [0, 0, 0, 0, 1, 1, 1]
      (initSys "k" 2 (⟨[], []⟩ : SpongeCache Nat) : Sys Nat Unit)).threads,
      p.2 = Phase.done 5 :=
  c1_single_flight_amended Nat Unit (fun _ => Except.ok 5) 0 "k" 5 2 ⟨[], []⟩
    [0, 0, 0, 0, 1, 1, 1] rfl (by decide) rfl (by decide)

end Sponge
